import Mathlib

/-
Shallow embedding of the transfer-classification and balance-ledger
persistence core of the namada-indexer repository, together with theorems
checking the specification's claims against it.

Embedded source files:
  * src/shared/src/utils.rs      (transfer_to_tx_kind, transfer_to_ibc_tx_kind,
                                  get_namada_ibc_trace, get_token_and_amount)
  * src/chain/src/repository/balance.rs
                                 (insert_balance, insert_balance_in_chunks,
                                  MAX_PARAM_SIZE)

Modelling conventions:
  * machine integers and unbounded amounts are Nat (no claim depends on
    overflow behaviour of amounts);
  * external library calls (serde JSON decoding, address codecs) are either
    modelled as already-decoded Option-valued fields or as small executable
    stand-in functions, each marked by a comment;
  * a Rust panic (panic!/expect/todo!) is modelled by the `Panics.panicked`
    outcome, distinct from an ordinary returned value;
  * the Postgres balances table is a list of rows; a multi-row
    INSERT .. ON CONFLICT (owner, token) DO UPDATE statement applies its rows
    in order, replacing raw_amount on key conflict, and fails when two input
    rows of one statement share a key (Postgres: an ON CONFLICT DO UPDATE
    command cannot affect a row a second time);
  * statement failures that originate in the store (connection loss etc.)
    are modelled by a fault oracle giving each statement an optional error.
-/

/-! ## Data model (src/shared/src: addresses, amounts, transfers) -/

/-- Internal protocol addresses; `masp` is the privacy-pool (MASP) address,
`ibc` the protocol-level bridge account. Mirrors
`namada_sdk::address::InternalAddress` restricted to the variants the
embedded code mentions. -/
inductive InternalAddress where
  | masp
  | ibc
  | other (name : String)
deriving DecidableEq

/-- Namada address (`namada_sdk::address::Address`). -/
inductive Address where
  | established (hash : String)
  | implicit (hash : String)
  | internal (addr : InternalAddress)
deriving DecidableEq

/-- `MASP_ADDRESS` from src/shared/src/utils.rs:
`Address::Internal(InternalAddress::Masp)`. -/
def MASP_ADDRESS : Address := Address.internal InternalAddress.masp

/-- `namada_sdk::address::IBC = Address::Internal(InternalAddress::Ibc)`. -/
def IBC_ADDRESS : Address := Address.internal InternalAddress.ibc

/-- Modelled rendering (Display) of an internal address. The concrete string
is irrelevant to every claim; only string containment tests consume it. -/
def InternalAddress.render : InternalAddress → String
  | .masp => "masp"
  | .ibc => "ibc"
  | .other name => name

/-- Modelled rendering (Display) of an address. -/
def Address.render : Address → String
  | .established hash => hash
  | .implicit hash => hash
  | .internal a => a.render

/-- `namada_sdk::token::DenominatedAmount`: raw integer amount plus
denomination exponent. -/
structure DenominatedAmount where
  amount : Nat
  denomination : Nat
deriving DecidableEq

/-- `namada_sdk::token::Account {owner, token}` (the token of an account is
itself an address). -/
structure Account where
  owner : Address
  token : Address
deriving DecidableEq

/-- `namada_sdk::token::Transfer`: ordered maps of sources and targets
(modelled as association lists in map order) plus the optional shielded
section hash (the privacy-pool marker, opaque here). -/
structure Transfer where
  sources : List (Account × DenominatedAmount)
  targets : List (Account × DenominatedAmount)
  shielded_section_hash : Option String
deriving DecidableEq

/-- `crate::ser::TransferData`, the serialized form carried inside
`TransactionKind` variants; `Transfer::into` is field-wise. -/
structure TransferData where
  sources : List (Account × DenominatedAmount)
  targets : List (Account × DenominatedAmount)
  shielded_section_hash : Option String
deriving DecidableEq

/-- The `data.into()` conversion from `Transfer` to `TransferData`. -/
def Transfer.intoData (t : Transfer) : TransferData :=
  ⟨t.sources, t.targets, t.shielded_section_hash⟩

/-! ## IBC trace data model -/

/-- One hop of a denomination trace: a (port, channel) pair. Mirrors the
ibc-rs trace-prefix type; the list below is kept in display order (head =
outermost hop). -/
structure TraceHop where
  port_id : String
  channel_id : String
deriving DecidableEq

/-- `PrefixedDenom`: trace path (list of hops, display order) plus base
denomination. -/
structure PrefixedDenom where
  trace_path : List TraceHop
  base_denom : String
deriving DecidableEq

/-- ibc-rs `TracePath::starts_with`: does the outermost hop equal `p`?
(The empty path starts with nothing.) -/
def trace_starts_with (path : List TraceHop) (p : TraceHop) : Bool :=
  match path with
  | [] => false
  | q :: _ => decide (q = p)

/-- ibc-rs `TracePath::remove_prefix`: drop the outermost hop when it equals
`p`, otherwise leave the path unchanged. -/
def trace_remove_head (path : List TraceHop) (p : TraceHop) : List TraceHop :=
  match path with
  | [] => []
  | q :: rest => if q = p then rest else q :: rest

/-- Display of a prefixed denomination: `p1/c1/.../base`. -/
def PrefixedDenom.render (d : PrefixedDenom) : String :=
  d.trace_path.foldr
    (fun p acc => p.port_id ++ "/" ++ p.channel_id ++ "/" ++ acc)
    d.base_denom

/-! ## Token identities and transaction kinds -/

/-- `crate::token::IbcToken {address, trace}` (the `Id::IbcTrace` wrapper is
modelled as the raw trace string). -/
structure IbcToken where
  address : Address
  trace : String
deriving DecidableEq

/-- `crate::token::Token`. -/
inductive Token where
  | native (a : Address)
  | ibc (t : IbcToken)
deriving DecidableEq

/-- The decoded fungible-token packet payload
(`namada_ibc::apps::transfer::types::packet::PacketData`): a prefixed coin,
sender and receiver signers, memo. -/
structure FtPacketData where
  denom : PrefixedDenom
  amount : Nat
  sender : String
  receiver : String
  memo : String
deriving DecidableEq

/-- An IBC packet, restricted to the fields the embedded code reads. The
`data` field models the outcome of `serde_json::from_slice::<FtPacketData>`
on the raw bytes: `none` stands for bytes that fail to decode. -/
structure Packet where
  port_id_on_b : String
  chan_id_on_b : String
  port_id_on_a : String
  chan_id_on_a : String
  data : Option FtPacketData
deriving DecidableEq

/-- `MsgRecvPacket`; `masp_tx` models the outcome of
`namada_sdk::ibc::extract_masp_tx_from_envelope` on this envelope. -/
structure MsgRecvPacket where
  packet : Packet
  masp_tx : Option String
deriving DecidableEq

/-- `PacketMsg`: only the `Recv` constructor is inspected by the code. -/
inductive PacketMsg where
  | recv (msg : MsgRecvPacket)
  | other (tag : String)
deriving DecidableEq

/-- `MsgEnvelope`: only the `Packet` constructor is inspected by the code. -/
inductive MsgEnvelope where
  | packet (m : PacketMsg)
  | other (tag : String)
deriving DecidableEq

/-- The message of `IbcMessage::Transfer`: its packet data. -/
structure MsgTransfer where
  packet_data : FtPacketData
deriving DecidableEq

/-- `namada_ibc::IbcMessage::Transfer` payload: the IBC transfer message plus
an optional inner Namada `Transfer` (present when the packet carries a
shielded payload). -/
structure IbcTransfer where
  message : MsgTransfer
  transfer : Option Transfer
deriving DecidableEq

/-- `namada_ibc::IbcMessage<Transfer>`. -/
inductive IbcMessage where
  | envelope (e : MsgEnvelope)
  | transfer (t : IbcTransfer)
  | nftTransfer (tag : String)
deriving DecidableEq

/-- `crate::transaction::TransactionKind`, restricted to the variants the
embedded functions construct. The spec's names RelayedMsg /
RelayedShieldingTransfer / RelayedTransparentTransfer /
RelayedUnshieldingTransfer correspond to the source's IbcMsg /
IbcShieldingTransfer / IbcTrasparentTransfer / IbcUnshieldingTransfer. -/
inductive TransactionKind where
  | transparentTransfer (d : Option TransferData)
  | shieldedTransfer (d : Option TransferData)
  | shieldingTransfer (d : Option TransferData)
  | unshieldingTransfer (d : Option TransferData)
  | mixedTransfer (d : Option TransferData)
  | ibcMsg (d : Option IbcMessage)
  | ibcShieldingTransfer (d : Token × TransferData)
  | ibcTrasparentTransfer (d : Token × TransferData)
  | ibcUnshieldingTransfer (d : Token × TransferData)
deriving DecidableEq

/-! ## Local transfer classification (src/shared/src/utils.rs lines 45-93) -/

/-- The owner-is-masp test applied to one (account, amount) entry. -/
def is_masp_owner (p : Account × DenominatedAmount) : Bool :=
  decide (p.1.owner = MASP_ADDRESS)

/-- The fold from `transfer_to_tx_kind` computing the
(all owners are masp, any owner is masp) pair of one side of a transfer,
starting from `(true, false)`. -/
def masp_flags (l : List (Account × DenominatedAmount)) : Bool × Bool :=
  l.foldl
    (fun p acc =>
      let is_masp := decide (acc.1.owner = MASP_ADDRESS)
      (p.1 && is_masp, p.2 || is_masp))
    (true, false)

/-- `transfer_to_tx_kind` (src/shared/src/utils.rs lines 45-93). -/
def transfer_to_tx_kind (data : Transfer) : TransactionKind :=
  let has_shielded_section := data.shielded_section_hash.isSome
  if has_shielded_section && data.sources.isEmpty && data.targets.isEmpty then
    -- For fully shielded transactions the masp address is not written
    -- explicitly in the sources nor in the targets.
    TransactionKind.shieldedTransfer (some data.intoData)
  else
    let s := masp_flags data.sources
    let t := masp_flags data.targets
    match s.1, s.2, t.1, t.2, has_shielded_section with
    | true, _, true, _, true => TransactionKind.shieldedTransfer (some data.intoData)
    | true, _, _, false, true => TransactionKind.unshieldingTransfer (some data.intoData)
    | _, false, true, _, true => TransactionKind.shieldingTransfer (some data.intoData)
    | _, false, _, false, false => TransactionKind.transparentTransfer (some data.intoData)
    | _, _, _, _, _ => TransactionKind.mixedTransfer (some data.intoData)

/-- Result tag of one row of the spec's decision table (§4.1). -/
inductive DecisionResult where
  | shielded
  | unshielding
  | shielding
  | transparent
  | mixed
deriving DecidableEq

/-- Modelled from the spec's words: the §4.1 decision table over the five
booleans, rows evaluated in priority order, first match wins. -/
def decision_table (all_sources any_sources all_targets any_targets marker : Bool) :
    DecisionResult :=
  if all_sources && all_targets && marker then DecisionResult.shielded
  else if all_sources && !any_targets && marker then DecisionResult.unshielding
  else if !any_sources && all_targets && marker then DecisionResult.shielding
  else if !any_sources && !any_targets && !marker then DecisionResult.transparent
  else DecisionResult.mixed

/-- Interpretation of a decision-table row as the `TransactionKind` carrying
the classified transfer. -/
def decision_result_kind (d : DecisionResult) (data : Transfer) : TransactionKind :=
  match d with
  | DecisionResult.shielded => TransactionKind.shieldedTransfer (some data.intoData)
  | DecisionResult.unshielding => TransactionKind.unshieldingTransfer (some data.intoData)
  | DecisionResult.shielding => TransactionKind.shieldingTransfer (some data.intoData)
  | DecisionResult.transparent => TransactionKind.transparentTransfer (some data.intoData)
  | DecisionResult.mixed => TransactionKind.mixedTransfer (some data.intoData)

/-! ## Rust panic outcomes -/

/-- Outcome of a Rust computation that may panic (`panic!`, `expect`,
`todo!`): either the process aborts with a message, or a value is returned.
A `panicked` outcome is an abort, not a typed error value handed to the
caller. -/
inductive Panics (α : Type) where
  | panicked (msg : String)
  | returns (a : α)
deriving DecidableEq

/-- Rust `str::contains`: `needle` occurs as a contiguous substring of
`hay`. -/
def strContains (hay needle : String) : Bool :=
  hay.data.tails.any (fun t => needle.data.isPrefixOf t)

/-! ## IBC trace resolution (src/shared/src/utils.rs lines 314-354) -/

/-- `get_namada_ibc_trace`: the sender is chain A, the receiver chain B
(Namada). Returns `none` when the token resolves to the local native token,
otherwise the synthetic trace `receiver_port/receiver_channel/<denom>`. -/
def get_namada_ibc_trace (sender_denom : PrefixedDenom)
    (sender_port sender_channel receiver_port receiver_channel : String) :
    Option String :=
  let pfx : TraceHop := ⟨sender_port, sender_channel⟩
  if !(trace_starts_with sender_denom.trace_path pfx) then
    -- this is a token native to chain A
    some (receiver_port ++ "/" ++ receiver_channel ++ "/" ++ sender_denom.render)
  else
    -- strip the prefix the remote chain stamped
    let denom : PrefixedDenom :=
      { sender_denom with trace_path := trace_remove_head sender_denom.trace_path pfx }
    if denom.trace_path.isEmpty then
      -- this token is native to Namada
      none
    else
      -- the token passed through at least one other chain
      some (receiver_port ++ "/" ++ receiver_channel ++ "/" ++ sender_denom.render)

/-- Modelled stand-in for the external library conversion
`namada_ibc::trace::convert_to_address` (sha256-derived token address); the
concrete value is irrelevant to every claim, only success/failure and
injectivity of supply matter. -/
def convert_to_address (trace : String) : Option Address :=
  if trace = "" then none else some (Address.established ("ibc/" ++ trace))

/-- Modelled stand-in for the external `Signer -> Address` conversion
(`.try_into()` on an IBC signer). -/
def signer_to_address (s : String) : Option Address :=
  if s = "" then none else some (Address.established s)

/-- Modelled stand-in for `namada_sdk::ibc::extract_masp_tx_from_envelope`,
reading the decoded masp payload carried by a recv-packet envelope. -/
def extract_masp_tx_from_envelope (e : MsgEnvelope) : Option String :=
  match e with
  | MsgEnvelope.packet (PacketMsg.recv m) => m.masp_tx
  | _ => none

/-- `PORT_ID_STR` of the ICS-20 fungible token application. -/
def FT_PORT_ID_STR : String := "transfer"

/-- `PORT_ID_STR` of the ICS-721 non-fungible token application. -/
def NFT_PORT_ID_STR : String := "nft_transfer"

/-! ## Token and amount extraction (src/shared/src/utils.rs lines 356-403) -/

/-- `get_token_and_amount`. Amount conversions (`IbcAmount -> Amount`,
both 256-bit) are modelled as the identity on `Nat`;
`DenominatedAmount::native` attaches the native denomination exponent 6,
`DenominatedAmount::new(_, 0)` the exponent 0. On a resolved `None` trace
whose denomination does not contain the native token's rendering the Rust
code executes `panic!`. -/
def get_token_and_amount (maybe_ibc_trace : Option String) (amount : Nat)
    (native_token : Address) (original_denom : PrefixedDenom) :
    Panics (Address × Token × DenominatedAmount) :=
  match maybe_ibc_trace with
  | some ibc_trace =>
    match convert_to_address ibc_trace with
    | none => Panics.panicked "Failed to convert IBC trace to address"
    | some token_address =>
      Panics.returns
        (token_address, Token.ibc ⟨token_address, ibc_trace⟩, ⟨amount, 0⟩)
  | none =>
    if !(strContains original_denom.render native_token.render) then
      Panics.panicked "Attempting to add native token other than NAM to the database"
    else
      Panics.returns (native_token, Token.native native_token, ⟨amount, 6⟩)

/-! ## Relayed transfer classification (src/shared/src/utils.rs lines 95-312) -/

/-- `transfer_to_ibc_tx_kind`. Panicking library calls (`expect` on serde
decoding, signer and trace-address conversion, `todo!` on NFT kinds) are
the `Panics.panicked` outcomes. -/
def transfer_to_ibc_tx_kind (ibc_data : IbcMessage) (native_token : Address) :
    Panics TransactionKind :=
  match ibc_data with
  | IbcMessage.envelope msg_envelope =>
    match msg_envelope with
    | MsgEnvelope.packet (PacketMsg.recv msg) =>
      if msg.packet.port_id_on_b = FT_PORT_ID_STR then
        match msg.packet.data with
        | none => Panics.panicked "Could not deserialize IBC fungible token packet"
        | some packet_data =>
          let maybe_ibc_trace :=
            get_namada_ibc_trace packet_data.denom
              msg.packet.port_id_on_a msg.packet.chan_id_on_a
              msg.packet.port_id_on_b msg.packet.chan_id_on_b
          match get_token_and_amount maybe_ibc_trace packet_data.amount
              native_token packet_data.denom with
          | Panics.panicked m => Panics.panicked m
          | Panics.returns (token, token_id, denominated_amount) =>
            match signer_to_address packet_data.receiver with
            | none => Panics.panicked "Failed to convert IBC signer to address"
            | some receiver =>
              let transfer_data : TransferData :=
                { sources := [(⟨IBC_ADDRESS, token⟩, denominated_amount)]
                  targets := [(⟨receiver, token⟩, denominated_amount)]
                  shielded_section_hash := none }
              let is_shielding := (extract_masp_tx_from_envelope msg_envelope).isSome
              if is_shielding then
                Panics.returns (TransactionKind.ibcShieldingTransfer (token_id, transfer_data))
              else
                Panics.returns (TransactionKind.ibcTrasparentTransfer (token_id, transfer_data))
      else if msg.packet.port_id_on_b = NFT_PORT_ID_STR then
        -- todo!: IBC NFTs are not yet supported for indexing purposes
        Panics.panicked "IBC NFTs are not yet supported for indexing purposes"
      else
        -- unsupported IBC packet data: explicit pass-through
        Panics.returns (TransactionKind.ibcMsg (some ibc_data))
    | MsgEnvelope.packet (PacketMsg.other _) =>
      Panics.returns (TransactionKind.ibcMsg (some ibc_data))
    | MsgEnvelope.other _ =>
      Panics.returns (TransactionKind.ibcMsg (some ibc_data))
  | IbcMessage.transfer transfer =>
    let step : Panics (Address × Token × DenominatedAmount) :=
      if strContains transfer.message.packet_data.denom.render native_token.render then
        Panics.returns
          (native_token, Token.native native_token,
            ⟨transfer.message.packet_data.amount, 6⟩)
      else
        let ibc_trace := transfer.message.packet_data.denom.render
        match convert_to_address ibc_trace with
        | none => Panics.panicked "Failed to convert IBC trace to address"
        | some token_address =>
          Panics.returns
            (token_address, Token.ibc ⟨token_address, ibc_trace⟩,
              ⟨transfer.message.packet_data.amount, 0⟩)
    match step with
    | Panics.panicked m => Panics.panicked m
    | Panics.returns (token, token_id, denominated_amount) =>
      match signer_to_address transfer.message.packet_data.sender with
      | none => Panics.panicked "Failed to convert IBC signer to address"
      | some sender =>
        let transfer_data : TransferData :=
          { sources := [(⟨sender, token⟩, denominated_amount)]
            targets := [(⟨IBC_ADDRESS, token⟩, denominated_amount)]
            shielded_section_hash :=
              match transfer.transfer with
              | some t => t.shielded_section_hash
              | none => none }
        if transfer.transfer.isSome then
          Panics.returns (TransactionKind.ibcUnshieldingTransfer (token_id, transfer_data))
        else
          Panics.returns (TransactionKind.ibcTrasparentTransfer (token_id, transfer_data))
  | IbcMessage.nftTransfer _ =>
    -- todo!: IBC NFTs are not yet supported for indexing purposes
    Panics.panicked "IBC NFTs are not yet supported for indexing purposes"

/-! ## Balance ledger persistence (src/chain/src/repository/balance.rs) -/

/-- A persisted balance row (`orm::balances::BalancesInsertDb`): canonical
owner and token strings plus the absolute raw amount. -/
structure BalanceRow where
  owner : String
  token : String
  raw_amount : Nat
deriving DecidableEq

/-- Key test on rows: does `s` occupy the `(o, k)` slot of the
`(owner, token)` primary key? -/
def mKey (o k : String) (s : BalanceRow) : Bool :=
  decide (s.owner = o) && decide (s.token = k)

/-- Effect of one row of a bulk `INSERT .. ON CONFLICT (owner, token)
DO UPDATE SET raw_amount = excluded.raw_amount` statement on the balances
table: on key conflict the stored `raw_amount` is replaced by the incoming
value, otherwise the row is appended. -/
def upsertRow (t : List BalanceRow) (r : BalanceRow) : List BalanceRow :=
  if t.any (mKey r.owner r.token) then
    t.map (fun s => if mKey r.owner r.token s then { s with raw_amount := r.raw_amount } else s)
  else
    t ++ [r]

/-- No two rows of the batch share a `(owner, token)` key (a bulk
ON CONFLICT DO UPDATE statement over a batch violating this fails in the
store: it cannot affect a row a second time). -/
def keysDistinct : List BalanceRow → Bool
  | [] => true
  | r :: rs => rs.all (fun s => !(mKey r.owner r.token s)) && keysDistinct rs

/-- `insert_balance` (src/chain/src/repository/balance.rs lines 18-39): one
bulk upsert statement against the caller's transaction scope. `fault` is
the store's verdict on executing the statement (`some e`: the statement
fails with db error `e`, e.g. connection loss); the anyhow context wraps
every failure with the fixed message from the source. On success the table
rows are applied in input order. -/
def insert_balance (fault : Option String) (balances : List BalanceRow)
    (t : List BalanceRow) : Except String (List BalanceRow) :=
  match fault with
  | some e => Except.error ("Failed to update balances in db: " ++ e)
  | none =>
    if keysDistinct balances then
      Except.ok (balances.foldl upsertRow t)
    else
      Except.error
        ("Failed to update balances in db: ON CONFLICT DO UPDATE command cannot affect row a second time")

/-- Table contents after one `insert_balance` call on a live store (no
external fault): the statement either applies all its rows or, failing,
leaves the table untouched. -/
def insert_balance_apply (t : List BalanceRow) (balances : List BalanceRow) :
    List BalanceRow :=
  match insert_balance none balances t with
  | Except.ok t2 => t2
  | Except.error _ => t

/-- `MAX_PARAM_SIZE = u16::MAX`, the store's bound-parameter ceiling. -/
def MAX_PARAM_SIZE : Nat := 65535

/-- Fuel-driven worker for `chunksOf`; the fuel is instantiated with the
list length, which suffices for any positive chunk size. -/
def chunksOfAux (fuel : Nat) (n : Nat) (l : List BalanceRow) :
    List (List BalanceRow) :=
  match fuel, l with
  | _, [] => []
  | 0, _ :: _ => []
  | f + 1, x :: xs => (x :: xs).take n :: chunksOfAux f n ((x :: xs).drop n)

/-- Rust `slice::chunks(n)`: split into consecutive chunks of `n` rows, the
last chunk possibly shorter. (Rust panics on `n = 0`; the model is only
ever used, and its lemmas only hold, for `0 < n`.) -/
def chunksOf (n : Nat) (l : List BalanceRow) : List (List BalanceRow) :=
  chunksOfAux l.length n l

/-- Outcome of running a sequence of chunked upsert statements: how many
statements were issued, the table contents on the connection afterwards,
and the error returned to the caller, if any. -/
structure ChunkRunResult where
  issued : Nat
  table : List BalanceRow
  fault : Option String
deriving DecidableEq

/-- Sequential execution of the chunk statements of
`insert_balance_in_chunks`: statement `i` executes under the store verdict
`faults i`; the first failure stops the loop (the `?` operator), returning
the failing statement's error; rows written by earlier statements stay on
the connection. -/
def run_chunks (faults : Nat → Option String) (i : Nat) (t : List BalanceRow) :
    List (List BalanceRow) → ChunkRunResult
  | [] => ⟨0, t, none⟩
  | c :: cs =>
    match insert_balance (faults i) c t with
    | Except.error e => ⟨1, t, some e⟩
    | Except.ok t2 =>
      let r := run_chunks faults (i + 1) t2 cs
      ⟨r.issued + 1, r.table, r.fault⟩

/-- `insert_balance_in_chunks` (src/chain/src/repository/balance.rs lines
41-63): query the live schema catalog for the column count of the balances
table (`col_count`, passed in as the catalog's answer), split the batch
into chunks of `MAX_PARAM_SIZE / col_count` rows and upsert them
sequentially. -/
def insert_balance_in_chunks (faults : Nat → Option String) (col_count : Nat)
    (balances : List BalanceRow) (t : List BalanceRow) : ChunkRunResult :=
  run_chunks faults 0 t (chunksOf (MAX_PARAM_SIZE / col_count) balances)

/-- The `(owner, token)` primary key of a row. -/
def rowKey (r : BalanceRow) : String × String := (r.owner, r.token)

/-- The primary-key invariant of the balances table: no two rows share an
`(owner, token)` key. -/
abbrev KeysUnique (t : List BalanceRow) : Prop := (t.map rowKey).Nodup

/-! ## Sample inputs used by witnesses -/

/-- A non-fully-shielded transfer with marker present (one transparent
source, no targets). -/
def sampleTransferC1 : Transfer :=
  ⟨[(⟨Address.established "tnam1alice", Address.established "tnam1tok"⟩, ⟨1, 0⟩)],
    [], some "h"⟩

/-- A fully shielded transfer: marker present, no sources, no targets. -/
def sampleTransferC4 : Transfer := ⟨[], [], some "h"⟩

/-- Marker present, empty sources, one non-masp target. -/
def sampleTransferC10 : Transfer :=
  ⟨[], [(⟨Address.established "tnam1bob", Address.established "tnam1tok"⟩, ⟨5, 0⟩)],
    some "h"⟩

/-- A remote-native denomination: empty trace path, base `uatom`. -/
def sampleDenom : PrefixedDenom := ⟨[], "uatom"⟩

/-- A sample balance row. -/
def sampleRowA : BalanceRow := ⟨"tnam1alice", "tnam1tok", 100⟩

/-- A second sample balance row with a different key. -/
def sampleRowB : BalanceRow := ⟨"tnam1bob", "tnam1tok", 7⟩

theorem masp_flags_foldl (l : List (Account × DenominatedAmount)) :
    ∀ a b : Bool,
      l.foldl
        (fun p acc =>
          let is_masp := decide (acc.1.owner = MASP_ADDRESS)
          (p.1 && is_masp, p.2 || is_masp))
        (a, b)
      = (a && l.all is_masp_owner, b || l.any is_masp_owner) := by
  induction l with
  | nil => intro a b; simp
  | cons x xs ih =>
      intro a b
      simp only [List.foldl_cons, List.all_cons, List.any_cons, ih,
        is_masp_owner, Bool.and_assoc, Bool.or_assoc]

theorem masp_flags_eq (l : List (Account × DenominatedAmount)) :
    masp_flags l = (l.all is_masp_owner, l.any is_masp_owner) := by
  simpa [masp_flags] using masp_flags_foldl l true false

/-- C1: for every Transfer that does not hit the fully-shielded
short-circuit, `transfer_to_tx_kind` returns the first matching row of the
spec's §4.1 decision table evaluated over the five booleans
(all-sources-masp, any-sources-masp, all-targets-masp, any-targets-masp,
marker-present), with MixedTransfer for every other combination.
Classification is total and deterministic: `transfer_to_tx_kind` is a total
Lean function. -/
theorem transfer_to_tx_kind_follows_decision_table (data : Transfer)
    (h : ¬(data.shielded_section_hash.isSome = true ∧ data.sources = [] ∧ data.targets = [])) :
    transfer_to_tx_kind data =
      decision_result_kind
        (decision_table (data.sources.all is_masp_owner) (data.sources.any is_masp_owner)
          (data.targets.all is_masp_owner) (data.targets.any is_masp_owner)
          data.shielded_section_hash.isSome)
        data := by
  have hcond :
      (data.shielded_section_hash.isSome && data.sources.isEmpty && data.targets.isEmpty) = false := by
    cases hm : data.shielded_section_hash.isSome with
    | false => simp
    | true =>
      cases hsrc : data.sources with
      | cons x xs => simp
      | nil =>
        cases htgt : data.targets with
        | cons y ys => simp
        | nil => exact absurd ⟨hm, hsrc, htgt⟩ h
  simp only [transfer_to_tx_kind, hcond, Bool.false_eq_true, if_false, masp_flags_eq]
  cases hA : data.sources.all is_masp_owner <;>
    cases hB : data.sources.any is_masp_owner <;>
      cases hC : data.targets.all is_masp_owner <;>
        cases hD : data.targets.any is_masp_owner <;>
          cases hE : data.shielded_section_hash.isSome <;>
            simp [decision_table, decision_result_kind]

/-- Witness for C1 at a concrete non-short-circuit input. -/
theorem transfer_to_tx_kind_follows_decision_table_witness :
    transfer_to_tx_kind sampleTransferC1 =
      decision_result_kind
        (decision_table (sampleTransferC1.sources.all is_masp_owner)
          (sampleTransferC1.sources.any is_masp_owner)
          (sampleTransferC1.targets.all is_masp_owner)
          (sampleTransferC1.targets.any is_masp_owner)
          sampleTransferC1.shielded_section_hash.isSome)
        sampleTransferC1 :=
  transfer_to_tx_kind_follows_decision_table sampleTransferC1 (by decide)

/-- C4: marker present with both sides empty short-circuits to
ShieldedTransfer. -/
theorem transfer_to_tx_kind_fully_shielded (data : Transfer)
    (h1 : data.shielded_section_hash.isSome = true)
    (h2 : data.sources = []) (h3 : data.targets = []) :
    transfer_to_tx_kind data = TransactionKind.shieldedTransfer (some data.intoData) := by
  simp [transfer_to_tx_kind, h1, h2, h3]

/-- Witness for C4 at a concrete fully-shielded input. -/
theorem transfer_to_tx_kind_fully_shielded_witness :
    transfer_to_tx_kind sampleTransferC4
      = TransactionKind.shieldedTransfer (some sampleTransferC4.intoData) :=
  transfer_to_tx_kind_fully_shielded sampleTransferC4 rfl rfl rfl

/-- C10: an empty side folds to (all = true, any = false), so marker
present + empty sources + non-empty all-non-masp targets classifies as
UnshieldingTransfer. -/
theorem transfer_to_tx_kind_empty_sources_unshielding (data : Transfer)
    (h1 : data.sources = []) (h2 : data.targets ≠ [])
    (h3 : ∀ p ∈ data.targets, p.1.owner ≠ MASP_ADDRESS)
    (h4 : data.shielded_section_hash.isSome = true) :
    masp_flags data.sources = (true, false) ∧
    transfer_to_tx_kind data = TransactionKind.unshieldingTransfer (some data.intoData) := by
  constructor
  · rw [h1]; rfl
  · have hall : data.targets.all is_masp_owner = false := by
      rcases ht : data.targets with _ | ⟨y, ys⟩
      · exact absurd ht h2
      · have hy : y ∈ data.targets := by rw [ht]; exact List.mem_cons_self y ys
        have hmy := h3 y hy
        simp [List.all_cons, is_masp_owner, hmy]
    have hany : data.targets.any is_masp_owner = false := by
      rw [List.any_eq_false]
      intro p hp
      simp [is_masp_owner, h3 p hp]
    have hcond :
        (data.shielded_section_hash.isSome && data.sources.isEmpty && data.targets.isEmpty) = false := by
      rcases ht : data.targets with _ | ⟨y, ys⟩
      · exact absurd ht h2
      · simp [ht]
    simp [transfer_to_tx_kind, hcond, masp_flags_eq, h1, hall, hany, h4, h2]

/-- Witness for C10 at a concrete input. -/
theorem transfer_to_tx_kind_empty_sources_unshielding_witness :
    masp_flags sampleTransferC10.sources = (true, false) ∧
    transfer_to_tx_kind sampleTransferC10
      = TransactionKind.unshieldingTransfer (some sampleTransferC10.intoData) :=
  transfer_to_tx_kind_empty_sources_unshielding sampleTransferC10 rfl
    (by decide) (by decide) rfl

/-- Shape facts about the synthetic trace `rp/rc/<base>`: it begins with the
receiver's port/channel and is never empty. -/
theorem synthetic_trace_shape (rp rc base : String) :
    ((rp ++ "/" ++ rc ++ "/").data).isPrefixOf
      ((rp ++ "/" ++ rc ++ "/" ++ base).data) = true ∧
    (rp ++ "/" ++ rc ++ "/" ++ base) ≠ "" := by
  constructor
  · rw [List.isPrefixOf_iff_prefix, String.data_append]
    exact List.prefix_append _ _
  · intro hempty
    have hlen := congrArg String.length hempty
    simp only [String.length_append] at hlen
    have hs : ("/" : String).length = 1 := rfl
    have he : ("" : String).length = 0 := rfl
    rw [hs, he] at hlen
    omega

/-- C5 (amended): resolution yields `none` exactly when the trace starts
with the sender prefix and stripping it leaves an empty path; otherwise it
yields the synthetic trace `receiver_port/receiver_channel/<original
denom>`, which begins with the receiver's port/channel and is never empty.
(The original claim's "never the sender's" clause is refuted by
`get_namada_ibc_trace_sender_prefix_counterexample`.) -/
theorem get_namada_ibc_trace_resolution (d : PrefixedDenom) (sp sc rp rc : String) :
    (get_namada_ibc_trace d sp sc rp rc = none ↔
      trace_starts_with d.trace_path ⟨sp, sc⟩ = true ∧
        trace_remove_head d.trace_path ⟨sp, sc⟩ = []) ∧
    (∀ s, get_namada_ibc_trace d sp sc rp rc = some s →
      s = rp ++ "/" ++ rc ++ "/" ++ d.render ∧
      ((rp ++ "/" ++ rc ++ "/").data).isPrefixOf s.data = true ∧
      s ≠ "") := by
  cases hsw : trace_starts_with d.trace_path ⟨sp, sc⟩ with
  | false =>
    have hres : get_namada_ibc_trace d sp sc rp rc
        = some (rp ++ "/" ++ rc ++ "/" ++ d.render) := by
      simp [get_namada_ibc_trace, hsw]
    constructor
    · rw [hres]; simp [hsw]
    · intro s hs
      rw [hres] at hs
      have hs2 : s = rp ++ "/" ++ rc ++ "/" ++ d.render := (Option.some.inj hs).symm
      subst hs2
      exact ⟨rfl, (synthetic_trace_shape rp rc d.render).1,
        (synthetic_trace_shape rp rc d.render).2⟩
  | true =>
    cases hie : trace_remove_head d.trace_path ⟨sp, sc⟩ with
    | nil =>
      have hres : get_namada_ibc_trace d sp sc rp rc = none := by
        simp [get_namada_ibc_trace, hsw, hie]
      rw [hres]
      constructor
      · simp [hsw, hie]
      · intro s hs; exact absurd hs (by simp)
    | cons q rest =>
      have hres : get_namada_ibc_trace d sp sc rp rc
          = some (rp ++ "/" ++ rc ++ "/" ++ d.render) := by
        simp [get_namada_ibc_trace, hsw, hie]
      constructor
      · rw [hres]; simp [hie]
      · intro s hs
        rw [hres] at hs
        have hs2 : s = rp ++ "/" ++ rc ++ "/" ++ d.render := (Option.some.inj hs).symm
        subst hs2
        exact ⟨rfl, (synthetic_trace_shape rp rc d.render).1,
          (synthetic_trace_shape rp rc d.render).2⟩

/-- Witness for the amended C5 at a concrete input (remote-native denom). -/
theorem get_namada_ibc_trace_resolution_witness :
    "p2/c2/uatom" = "p2" ++ "/" ++ "c2" ++ "/" ++ sampleDenom.render ∧
    (("p2" ++ "/" ++ "c2" ++ "/").data).isPrefixOf ("p2/c2/uatom".data) = true ∧
    "p2/c2/uatom" ≠ "" :=
  (get_namada_ibc_trace_resolution sampleDenom "p" "c" "p2" "c2").2
    "p2/c2/uatom" (by decide)

/-- Counterexample to C5 as stated: when the sender's (port, channel) pair
coincides with the receiver's (identifiers are chain-local, so this is a
legal input), the synthesized trace does begin with the sender's
port/channel, refuting the claim's "never the sender's". -/
theorem get_namada_ibc_trace_sender_prefix_counterexample :
    get_namada_ibc_trace sampleDenom "transfer" "channel-0" "transfer" "channel-0"
      = some "transfer/channel-0/uatom" ∧
    (("transfer" ++ "/" ++ "channel-0" ++ "/").data).isPrefixOf
      ("transfer/channel-0/uatom".data) = true := by
  decide

/-- C6 (amended): when trace resolution yields `none` but the packet's
denomination does not contain the configured native token's rendering,
`get_token_and_amount` does not silently coerce the token to native — but
neither does it return a typed error: it panics (aborting processing) with
a fixed diagnostic message. -/
theorem get_token_and_amount_native_mismatch_panics (amount : Nat)
    (native_token : Address) (d : PrefixedDenom)
    (h : strContains d.render native_token.render = false) :
    get_token_and_amount none amount native_token d
      = Panics.panicked "Attempting to add native token other than NAM to the database" := by
  simp [get_token_and_amount, h]

/-- Witness for the amended C6 at a concrete mismatching input. -/
theorem get_token_and_amount_native_mismatch_panics_witness :
    get_token_and_amount none 5 (Address.established "tnam1native") sampleDenom
      = Panics.panicked "Attempting to add native token other than NAM to the database" :=
  get_token_and_amount_native_mismatch_panics 5 (Address.established "tnam1native")
    sampleDenom (by decide)

/-- Counterexample to C6 as stated: at a concrete input with a resolved
`none` trace and a denomination (`uatom`) not matching the native token,
the operation's outcome is a panic (process abort), not a typed
consistency-violation result propagated to the caller. -/
theorem get_token_and_amount_abort_counterexample :
    get_token_and_amount none 7 (Address.established "tnam1nam") ⟨[], "uosmo"⟩
      = Panics.panicked "Attempting to add native token other than NAM to the database" := by
  decide

/-- C8 (amended): relayed messages outside the supported fungible-token and
multi-message envelope formats pass through unclassified as `IbcMsg`
(RelayedMsg) carrying the raw envelope unmodified — except the non-fungible
kinds (NFT port id, or an `NftTransfer` message), on which the code panics
via `todo!` instead of passing through. -/
theorem transfer_to_ibc_tx_kind_passthrough (native_token : Address) :
    (∀ tag, transfer_to_ibc_tx_kind (IbcMessage.envelope (MsgEnvelope.other tag)) native_token
      = Panics.returns (TransactionKind.ibcMsg (some (IbcMessage.envelope (MsgEnvelope.other tag))))) ∧
    (∀ tag, transfer_to_ibc_tx_kind
        (IbcMessage.envelope (MsgEnvelope.packet (PacketMsg.other tag))) native_token
      = Panics.returns (TransactionKind.ibcMsg
          (some (IbcMessage.envelope (MsgEnvelope.packet (PacketMsg.other tag)))))) ∧
    (∀ msg : MsgRecvPacket,
      msg.packet.port_id_on_b ≠ FT_PORT_ID_STR →
      msg.packet.port_id_on_b ≠ NFT_PORT_ID_STR →
      transfer_to_ibc_tx_kind
          (IbcMessage.envelope (MsgEnvelope.packet (PacketMsg.recv msg))) native_token
        = Panics.returns (TransactionKind.ibcMsg
            (some (IbcMessage.envelope (MsgEnvelope.packet (PacketMsg.recv msg)))))) ∧
    (∀ msg : MsgRecvPacket,
      msg.packet.port_id_on_b = NFT_PORT_ID_STR →
      transfer_to_ibc_tx_kind
          (IbcMessage.envelope (MsgEnvelope.packet (PacketMsg.recv msg))) native_token
        = Panics.panicked "IBC NFTs are not yet supported for indexing purposes") ∧
    (∀ tag, transfer_to_ibc_tx_kind (IbcMessage.nftTransfer tag) native_token
      = Panics.panicked "IBC NFTs are not yet supported for indexing purposes") := by
  refine ⟨fun tag => rfl, fun tag => rfl, ?_, ?_, fun tag => rfl⟩
  · intro msg h1 h2
    simp [transfer_to_ibc_tx_kind, h1, h2]
  · intro msg h1
    have h2 : msg.packet.port_id_on_b ≠ FT_PORT_ID_STR := by
      rw [h1]; decide
    simp [transfer_to_ibc_tx_kind, h1, h2]
    intro hcontr
    exact absurd hcontr (by decide)

/-- Witness for the amended C8 at a concrete unsupported-port input. -/
theorem transfer_to_ibc_tx_kind_passthrough_witness :
    transfer_to_ibc_tx_kind
        (IbcMessage.envelope (MsgEnvelope.packet (PacketMsg.recv
          ⟨⟨"ica", "channel-3", "ica", "channel-9", none⟩, none⟩)))
        (Address.established "tnam1nam")
      = Panics.returns (TransactionKind.ibcMsg
          (some (IbcMessage.envelope (MsgEnvelope.packet (PacketMsg.recv
            ⟨⟨"ica", "channel-3", "ica", "channel-9", none⟩, none⟩))))) :=
  (transfer_to_ibc_tx_kind_passthrough (Address.established "tnam1nam")).2.2.1
    ⟨⟨"ica", "channel-3", "ica", "channel-9", none⟩, none⟩ (by decide) (by decide)

/-- Counterexample to C8 as stated: a structurally valid non-fungible
relayed message (an `NftTransfer`, and likewise a recv packet on the NFT
port) does not yield the pass-through `IbcMsg` outcome — the code aborts
with a `todo!` panic. -/
theorem transfer_to_ibc_tx_kind_nft_counterexample :
    transfer_to_ibc_tx_kind (IbcMessage.nftTransfer "nft") (Address.established "tnam1nam")
      = Panics.panicked "IBC NFTs are not yet supported for indexing purposes" ∧
    transfer_to_ibc_tx_kind
        (IbcMessage.envelope (MsgEnvelope.packet (PacketMsg.recv
          ⟨⟨"nft_transfer", "channel-3", "nft_transfer", "channel-9", none⟩, none⟩)))
        (Address.established "tnam1nam")
      = Panics.panicked "IBC NFTs are not yet supported for indexing purposes" := by
  constructor
  · rfl
  · decide

theorem mKey_eq_true {o k : String} {s : BalanceRow} :
    mKey o k s = true ↔ s.owner = o ∧ s.token = k := by
  simp [mKey]

theorem mKey_eq_false {o k : String} {s : BalanceRow} :
    mKey o k s = false ↔ ¬(s.owner = o ∧ s.token = k) := by
  rw [← mKey_eq_true]
  cases mKey o k s <;> simp

theorem mKey_self (o k : String) (a : Nat) : mKey o k (⟨o, k, a⟩ : BalanceRow) = true := by
  simp [mKey]

theorem upsert_present (t : List BalanceRow) (r : BalanceRow)
    (h : t.any (mKey r.owner r.token) = true) :
    upsertRow t r
      = t.map (fun s =>
          if mKey r.owner r.token s then ⟨r.owner, r.token, r.raw_amount⟩ else s) := by
  unfold upsertRow
  rw [if_pos h]
  apply List.map_congr_left
  intro s _
  by_cases hm : mKey r.owner r.token s = true
  · rw [if_pos hm, if_pos hm]
    obtain ⟨h1, h2⟩ := mKey_eq_true.mp hm
    cases s with
    | mk a b c => simp_all
  · rw [if_neg hm, if_neg hm]

theorem upsert_absent (t : List BalanceRow) (r : BalanceRow)
    (h : t.any (mKey r.owner r.token) = false) :
    upsertRow t r = t ++ [r] := by
  simp [upsertRow, h]

theorem ow_filter_match (t : List BalanceRow) (o k : String) (a : Nat) :
    (t.map (fun s => if mKey o k s then ⟨o, k, a⟩ else s)).filter (mKey o k)
      = List.replicate (t.countP (mKey o k)) (⟨o, k, a⟩ : BalanceRow) := by
  induction t with
  | nil => rfl
  | cons s ts ih =>
    by_cases hm : mKey o k s = true
    · simp [List.filter_cons, List.countP_cons, hm, mKey_self, ih, List.replicate_succ]
    · have hm' : mKey o k s = false := by
        revert hm; cases mKey o k s <;> simp
      simp [List.filter_cons, List.countP_cons, hm, hm', ih]

theorem ow_filter_other (t : List BalanceRow) (o k : String) (a : Nat) :
    (t.map (fun s => if mKey o k s then ⟨o, k, a⟩ else s)).filter
        (fun s => !(mKey o k s))
      = t.filter (fun s => !(mKey o k s)) := by
  induction t with
  | nil => rfl
  | cons s ts ih =>
    by_cases hm : mKey o k s = true
    · simp [List.filter_cons, hm, mKey_self, ih]
    · have hm' : mKey o k s = false := by
        revert hm; cases mKey o k s <;> simp
      simp [List.filter_cons, hm, hm', ih]

theorem countP_le_one_of_unique (t : List BalanceRow) (o k : String)
    (h : KeysUnique t) : t.countP (mKey o k) ≤ 1 := by
  induction t with
  | nil => simp
  | cons s ts ih =>
    have hnd : (rowKey s :: ts.map rowKey).Nodup := h
    rw [List.nodup_cons] at hnd
    by_cases hm : mKey o k s = true
    · obtain ⟨h1, hs2⟩ := mKey_eq_true.mp hm
      have hzero : ts.countP (mKey o k) = 0 := by
        rw [List.countP_eq_zero]
        intro x hx hmx
        obtain ⟨hx1, hx2⟩ := mKey_eq_true.mp hmx
        apply hnd.1
        have hkk : rowKey s = rowKey x := by simp [rowKey, hx1, hx2, h1, hs2]
        rw [hkk]
        exact List.mem_map_of_mem rowKey hx
      simp [List.countP_cons, hm, hzero]
    · have hm' : mKey o k s = false := by
        revert hm; cases mKey o k s <;> simp
      simp only [List.countP_cons, hm', if_false, Nat.add_zero]
      simpa using ih hnd.2

theorem countP_eq_one_of_unique_any (t : List BalanceRow) (o k : String)
    (hu : KeysUnique t) (ha : t.any (mKey o k) = true) :
    t.countP (mKey o k) = 1 := by
  have hle := countP_le_one_of_unique t o k hu
  have hpos : 0 < t.countP (mKey o k) :=
    List.countP_pos_iff.mpr (List.any_eq_true.mp ha)
  omega

theorem upsert_keys_unique (t : List BalanceRow) (r : BalanceRow)
    (h : KeysUnique t) : KeysUnique (upsertRow t r) := by
  by_cases hp : t.any (mKey r.owner r.token) = true
  · rw [upsert_present t r hp]
    show ((t.map (fun s =>
      if mKey r.owner r.token s then ⟨r.owner, r.token, r.raw_amount⟩ else s)).map rowKey).Nodup
    rw [List.map_map]
    have hmaps :
        t.map (rowKey ∘ fun s =>
          if mKey r.owner r.token s then ⟨r.owner, r.token, r.raw_amount⟩ else s)
        = t.map rowKey := by
      apply List.map_congr_left
      intro s _
      by_cases hm : mKey r.owner r.token s = true
      · obtain ⟨h1, h2⟩ := mKey_eq_true.mp hm
        simp [Function.comp, if_pos hm, rowKey, h1, h2]
      · simp [Function.comp, if_neg hm]
    rw [hmaps]
    exact h
  · have hp' : t.any (mKey r.owner r.token) = false := by
      revert hp; cases t.any (mKey r.owner r.token) <;> simp
    rw [upsert_absent t r hp']
    show ((t ++ [r]).map rowKey).Nodup
    rw [List.map_append, List.nodup_append]
    refine ⟨h, List.nodup_singleton _, ?_⟩
    intro x hx hmem
    simp only [List.map_cons, List.map_nil, List.mem_singleton] at hmem
    subst hmem
    obtain ⟨s, hs, hks⟩ := List.mem_map.mp hx
    have hfalse := List.any_eq_false.mp hp' s hs
    apply hfalse
    have h1 : s.owner = r.owner := congrArg Prod.fst hks
    have h2 : s.token = r.token := congrArg Prod.snd hks
    simp [mKey, h1, h2]

theorem foldl_upsert_keys_unique (b : List BalanceRow) (t : List BalanceRow)
    (h : KeysUnique t) : KeysUnique (b.foldl upsertRow t) := by
  induction b generalizing t with
  | nil => exact h
  | cons r b ih => exact ih (upsertRow t r) (upsert_keys_unique t r h)

theorem insert_balance_apply_keys_unique (t b : List BalanceRow)
    (h : KeysUnique t) : KeysUnique (insert_balance_apply t b) := by
  unfold insert_balance_apply insert_balance
  by_cases hd : keysDistinct b = true
  · simp only [hd, if_true]
    exact foldl_upsert_keys_unique b t h
  · simp only [hd, if_false]
    exact h

theorem insert_balance_apply_singleton (t : List BalanceRow) (r : BalanceRow) :
    insert_balance_apply t [r] = upsertRow t r := by
  simp [insert_balance_apply, insert_balance, keysDistinct]

theorem upsert_twice_same_key (t : List BalanceRow) (o k : String) (a1 a2 : Nat)
    (hu : KeysUnique t) :
    (upsertRow (upsertRow t ⟨o, k, a1⟩) ⟨o, k, a2⟩).filter (mKey o k)
      = [(⟨o, k, a2⟩ : BalanceRow)] ∧
    (upsertRow (upsertRow t ⟨o, k, a1⟩) ⟨o, k, a2⟩).filter (fun s => !(mKey o k s))
      = t.filter (fun s => !(mKey o k s)) := by
  by_cases hany : t.any (mKey o k) = true
  · have hc1 := countP_eq_one_of_unique_any t o k hu hany
    have ht1 : upsertRow t ⟨o, k, a1⟩
        = t.map (fun s => if mKey o k s then ⟨o, k, a1⟩ else s) :=
      upsert_present t ⟨o, k, a1⟩ hany
    have hf1 : (upsertRow t ⟨o, k, a1⟩).filter (mKey o k) = [(⟨o, k, a1⟩ : BalanceRow)] := by
      rw [ht1, ow_filter_match, hc1]
      rfl
    have hany1 : (upsertRow t ⟨o, k, a1⟩).any (mKey o k) = true := by
      rw [List.any_eq_true]
      refine ⟨⟨o, k, a1⟩, ?_, mKey_self o k a1⟩
      have : (⟨o, k, a1⟩ : BalanceRow) ∈ (upsertRow t ⟨o, k, a1⟩).filter (mKey o k) := by
        rw [hf1]; exact List.mem_singleton_self _
      exact List.mem_of_mem_filter this
    have hc2 : (upsertRow t ⟨o, k, a1⟩).countP (mKey o k) = 1 := by
      rw [List.countP_eq_length_filter, hf1]
      rfl
    have ht2 : upsertRow (upsertRow t ⟨o, k, a1⟩) ⟨o, k, a2⟩
        = (upsertRow t ⟨o, k, a1⟩).map (fun s => if mKey o k s then ⟨o, k, a2⟩ else s) :=
      upsert_present (upsertRow t ⟨o, k, a1⟩) ⟨o, k, a2⟩ hany1
    constructor
    · rw [ht2, ow_filter_match, hc2]
      rfl
    · rw [ht2, ow_filter_other, ht1, ow_filter_other]
  · have hany' : t.any (mKey o k) = false := by
      revert hany; cases t.any (mKey o k) <;> simp
    have ht1 : upsertRow t ⟨o, k, a1⟩ = t ++ [⟨o, k, a1⟩] :=
      upsert_absent t ⟨o, k, a1⟩ hany'
    have hany1 : (upsertRow t ⟨o, k, a1⟩).any (mKey o k) = true := by
      rw [ht1, List.any_eq_true]
      exact ⟨⟨o, k, a1⟩, List.mem_append_right t (List.mem_singleton_self _), mKey_self o k a1⟩
    have ht2 : upsertRow (upsertRow t ⟨o, k, a1⟩) ⟨o, k, a2⟩
        = (upsertRow t ⟨o, k, a1⟩).map (fun s => if mKey o k s then ⟨o, k, a2⟩ else s) :=
      upsert_present (upsertRow t ⟨o, k, a1⟩) ⟨o, k, a2⟩ hany1
    have hmapt : t.map (fun s => if mKey o k s then (⟨o, k, a2⟩ : BalanceRow) else s) = t := by
      have : ∀ s ∈ t, (if mKey o k s then (⟨o, k, a2⟩ : BalanceRow) else s) = s := by
        intro s hs
        rw [if_neg]
        intro hm
        exact absurd hm (by simp [List.any_eq_false.mp hany' s hs])
      rw [List.map_congr_left this]
      exact List.map_id t
    have ht2' : upsertRow (upsertRow t ⟨o, k, a1⟩) ⟨o, k, a2⟩ = t ++ [⟨o, k, a2⟩] := by
      rw [ht2, ht1, List.map_append, hmapt]
      simp [mKey_self]
    have hfilt : t.filter (mKey o k) = [] :=
      List.filter_eq_nil_iff.mpr (fun s hs => by simp [List.any_eq_false.mp hany' s hs])
    constructor
    · rw [ht2', List.filter_append, hfilt]
      simp [mKey_self]
    · rw [ht2', List.filter_append]
      simp [mKey_self]

/-- C2: the balance upsert is keyed on (owner, token) with last-write-wins
replacement. Starting from any table satisfying the primary-key invariant,
any sequence of `insert_balance` calls preserves at-most-one-row-per-key;
and two successive single-row calls on the same key leave exactly one row
for that key, holding the amount of the second call, while rows of every
other key are untouched. -/
theorem insert_balance_last_write_wins :
    (∀ (batches : List (List BalanceRow)) (t : List BalanceRow), KeysUnique t →
      KeysUnique (batches.foldl insert_balance_apply t)) ∧
    (∀ (t : List BalanceRow) (o k : String) (a1 a2 : Nat), KeysUnique t → a1 ≠ a2 →
      (insert_balance_apply (insert_balance_apply t [⟨o, k, a1⟩]) [⟨o, k, a2⟩]).filter (mKey o k)
        = [(⟨o, k, a2⟩ : BalanceRow)] ∧
      (insert_balance_apply (insert_balance_apply t [⟨o, k, a1⟩]) [⟨o, k, a2⟩]).filter
          (fun s => !(mKey o k s))
        = t.filter (fun s => !(mKey o k s))) := by
  constructor
  · intro batches
    induction batches with
    | nil => intro t h; exact h
    | cons b bs ih =>
      intro t h
      exact ih (insert_balance_apply t b) (insert_balance_apply_keys_unique t b h)
  · intro t o k a1 a2 hu _
    rw [insert_balance_apply_singleton, insert_balance_apply_singleton]
    exact upsert_twice_same_key t o k a1 a2 hu

/-- Witness for C2 on the empty table with key ("tnam1alice", "tnam1tok")
and amounts 100, then 200. -/
theorem insert_balance_last_write_wins_witness :
    (insert_balance_apply (insert_balance_apply [] [⟨"tnam1alice", "tnam1tok", 100⟩])
        [⟨"tnam1alice", "tnam1tok", 200⟩]).filter (mKey "tnam1alice" "tnam1tok")
      = [(⟨"tnam1alice", "tnam1tok", 200⟩ : BalanceRow)] ∧
    (insert_balance_apply (insert_balance_apply [] [⟨"tnam1alice", "tnam1tok", 100⟩])
        [⟨"tnam1alice", "tnam1tok", 200⟩]).filter
        (fun s => !(mKey "tnam1alice" "tnam1tok" s))
      = ([] : List BalanceRow).filter (fun s => !(mKey "tnam1alice" "tnam1tok" s)) :=
  insert_balance_last_write_wins.2 [] "tnam1alice" "tnam1tok" 100 200
    (by decide) (by decide)

theorem upsert_match_eq (t : List BalanceRow) (r : BalanceRow) :
    ∀ s ∈ upsertRow t r, mKey r.owner r.token s = true → s = r := by
  intro s hs hm
  by_cases hp : t.any (mKey r.owner r.token) = true
  · rw [upsert_present t r hp] at hs
    obtain ⟨x, hx, hfx⟩ := List.mem_map.mp hs
    by_cases hmx : mKey r.owner r.token x = true
    · rw [if_pos hmx] at hfx
      rw [← hfx]
    · rw [if_neg hmx] at hfx
      rw [← hfx] at hm
      exact absurd hm hmx
  · have hp' : t.any (mKey r.owner r.token) = false := by
      revert hp; cases t.any (mKey r.owner r.token) <;> simp
    rw [upsert_absent t r hp'] at hs
    rcases List.mem_append.mp hs with hmem | hmem
    · exact absurd hm (by simp [List.any_eq_false.mp hp' s hmem])
    · exact List.mem_singleton.mp hmem

theorem upsert_any_self (t : List BalanceRow) (r : BalanceRow) :
    (upsertRow t r).any (mKey r.owner r.token) = true := by
  by_cases hp : t.any (mKey r.owner r.token) = true
  · rw [upsert_present t r hp]
    obtain ⟨x, hx, hmx⟩ := List.any_eq_true.mp hp
    rw [List.any_eq_true]
    refine ⟨(if mKey r.owner r.token x then (⟨r.owner, r.token, r.raw_amount⟩ : BalanceRow) else x),
      List.mem_map_of_mem _ hx, ?_⟩
    rw [if_pos hmx]
    simp [mKey]
  · have hp' : t.any (mKey r.owner r.token) = false := by
      revert hp; cases t.any (mKey r.owner r.token) <;> simp
    rw [upsert_absent t r hp', List.any_eq_true]
    exact ⟨r, List.mem_append_right t (List.mem_singleton_self r), by simp [mKey]⟩

theorem upsert_other_key_match_eq (X : List BalanceRow) (q : BalanceRow)
    (o k : String) (r : BalanceRow) (hq : mKey o k q = false)
    (hinv : ∀ s ∈ X, mKey o k s = true → s = r) :
    ∀ s ∈ upsertRow X q, mKey o k s = true → s = r := by
  intro s hs hm
  by_cases hp : X.any (mKey q.owner q.token) = true
  · rw [upsert_present X q hp] at hs
    obtain ⟨x, hx, hfx⟩ := List.mem_map.mp hs
    by_cases hmx : mKey q.owner q.token x = true
    · rw [if_pos hmx] at hfx
      rw [← hfx] at hm
      obtain ⟨e1, e2⟩ := mKey_eq_true.mp hm
      rw [mKey_eq_false] at hq
      exact absurd ⟨e1, e2⟩ hq
    · rw [if_neg hmx] at hfx
      rw [← hfx] at hm ⊢
      exact hinv x hx hm
  · have hp' : X.any (mKey q.owner q.token) = false := by
      revert hp; cases X.any (mKey q.owner q.token) <;> simp
    rw [upsert_absent X q hp'] at hs
    rcases List.mem_append.mp hs with hmem | hmem
    · exact hinv s hmem hm
    · rw [List.mem_singleton.mp hmem] at hm
      exact absurd hm (by simp [hq])

theorem upsert_other_key_any (X : List BalanceRow) (q : BalanceRow) (o k : String)
    (hq : mKey o k q = false) (hany : X.any (mKey o k) = true) :
    (upsertRow X q).any (mKey o k) = true := by
  obtain ⟨x, hx, hmx⟩ := List.any_eq_true.mp hany
  by_cases hp : X.any (mKey q.owner q.token) = true
  · rw [upsert_present X q hp, List.any_eq_true]
    have hqx : mKey q.owner q.token x = false := by
      cases hcase : mKey q.owner q.token x
      · rfl
      · exfalso
        obtain ⟨e1, e2⟩ := mKey_eq_true.mp hcase
        obtain ⟨f1, f2⟩ := mKey_eq_true.mp hmx
        rw [mKey_eq_false] at hq
        exact hq ⟨by rw [← e1]; exact f1, by rw [← e2]; exact f2⟩
    refine ⟨x, ?_, hmx⟩
    have hfx : (if mKey q.owner q.token x then (⟨q.owner, q.token, q.raw_amount⟩ : BalanceRow) else x)
        = x := if_neg (by simp [hqx])
    rw [← hfx]
    exact List.mem_map_of_mem _ hx
  · have hp' : X.any (mKey q.owner q.token) = false := by
      revert hp; cases X.any (mKey q.owner q.token) <;> simp
    rw [upsert_absent X q hp', List.any_eq_true]
    exact ⟨x, List.mem_append_left _ hx, hmx⟩

theorem foldl_other_keys (b : List BalanceRow) : ∀ (o k : String) (r : BalanceRow),
    (∀ q ∈ b, mKey o k q = false) →
    ∀ X : List BalanceRow,
      (∀ s ∈ X, mKey o k s = true → s = r) → X.any (mKey o k) = true →
      (∀ s ∈ b.foldl upsertRow X, mKey o k s = true → s = r) ∧
        (b.foldl upsertRow X).any (mKey o k) = true := by
  induction b with
  | nil => intro o k r _ X h1 h2; exact ⟨h1, h2⟩
  | cons q b ih =>
    intro o k r hb X h1 h2
    have hq := hb q (List.mem_cons_self q b)
    have hb' : ∀ p ∈ b, mKey o k p = false := fun p hp => hb p (List.mem_cons_of_mem q hp)
    simp only [List.foldl_cons]
    exact ih o k r hb' (upsertRow X q)
      (upsert_other_key_match_eq X q o k r hq h1)
      (upsert_other_key_any X q o k hq h2)

theorem upsert_id (X : List BalanceRow) (r : BalanceRow)
    (h1 : ∀ s ∈ X, mKey r.owner r.token s = true → s = r)
    (h2 : X.any (mKey r.owner r.token) = true) :
    upsertRow X r = X := by
  rw [upsert_present X r h2]
  have hpt : ∀ s ∈ X,
      (if mKey r.owner r.token s then (⟨r.owner, r.token, r.raw_amount⟩ : BalanceRow) else s)
        = s := by
    intro s hs
    by_cases hm : mKey r.owner r.token s = true
    · rw [if_pos hm, h1 s hs hm]
    · rw [if_neg hm]
  rw [List.map_congr_left hpt]
  exact List.map_id X

theorem foldl_upsert_idem (b : List BalanceRow) : ∀ t : List BalanceRow,
    keysDistinct b = true →
    b.foldl upsertRow (b.foldl upsertRow t) = b.foldl upsertRow t := by
  induction b with
  | nil => intro t _; rfl
  | cons r b ih =>
    intro t hd
    have hd' : b.all (fun s => !(mKey r.owner r.token s)) = true ∧ keysDistinct b = true := by
      simpa [keysDistinct, Bool.and_eq_true] using hd
    have hb : ∀ q ∈ b, mKey r.owner r.token q = false := by
      intro q hq
      have hq2 := List.all_eq_true.mp hd'.1 q hq
      revert hq2; cases mKey r.owner r.token q <;> simp
    simp only [List.foldl_cons]
    have hX := foldl_other_keys b r.owner r.token r hb (upsertRow t r)
      (upsert_match_eq t r) (upsert_any_self t r)
    rw [upsert_id (b.foldl upsertRow (upsertRow t r)) r hX.1 hX.2]
    exact ih (upsertRow t r) hd'.2

/-- C9: re-running the same batch of balance rows through the writer twice
(with no interleaving writes) leaves exactly the table contents of running
it once — the upsert is idempotent on re-runs (for every batch and every
starting table, including batches the statement rejects). -/
theorem insert_balance_idempotent (b t : List BalanceRow) :
    insert_balance_apply (insert_balance_apply t b) b = insert_balance_apply t b := by
  by_cases hd : keysDistinct b = true
  · have happ : ∀ u, insert_balance_apply u b = b.foldl upsertRow u := by
      intro u; simp [insert_balance_apply, insert_balance, hd]
    rw [happ, happ]
    exact foldl_upsert_idem b t hd
  · have hd' : keysDistinct b = false := by
      revert hd; cases keysDistinct b <;> simp
    have happ : ∀ u, insert_balance_apply u b = u := by
      intro u; simp [insert_balance_apply, insert_balance, hd']
    rw [happ, happ]

theorem chunksOfAux_fuel (n : Nat) (hn : 0 < n) :
    ∀ f f2 : Nat, ∀ l : List BalanceRow, l.length ≤ f → l.length ≤ f2 →
      chunksOfAux f n l = chunksOfAux f2 n l := by
  intro f
  induction f using Nat.strong_induction_on with
  | _ f ih =>
    intro f2 l hl hl2
    cases l with
    | nil => cases f <;> cases f2 <;> rfl
    | cons x xs =>
      cases f with
      | zero => exact absurd hl (by simp)
      | succ f1 =>
        cases f2 with
        | zero => exact absurd hl2 (by simp)
        | succ f3 =>
          simp only [chunksOfAux]
          congr 1
          apply ih f1 (by omega) f3
          · rw [List.length_drop]
            simp only [List.length_cons] at hl ⊢
            omega
          · rw [List.length_drop]
            simp only [List.length_cons] at hl2 ⊢
            omega

theorem chunksOf_cons (n : Nat) (hn : 0 < n) (x : BalanceRow) (xs : List BalanceRow) :
    chunksOf n (x :: xs) = (x :: xs).take n :: chunksOf n ((x :: xs).drop n) := by
  unfold chunksOf
  simp only [List.length_cons, chunksOfAux]
  congr 1
  apply chunksOfAux_fuel n hn xs.length ((x :: xs).drop n).length
  · rw [List.length_drop]
    simp only [List.length_cons]
    omega
  · exact Nat.le_refl _

theorem chunksOf_length (n : Nat) (hn : 0 < n) :
    ∀ (N : Nat) (l : List BalanceRow), l.length ≤ N →
      (chunksOf n l).length = (l.length + n - 1) / n := by
  intro N
  induction N with
  | zero =>
    intro l hl
    have hnil : l = [] := List.length_eq_zero.mp (Nat.le_zero.mp hl)
    subst hnil
    simp only [chunksOf, chunksOfAux, List.length_nil]
    exact (Nat.div_eq_of_lt (by omega)).symm
  | succ N ih =>
    intro l hl
    cases l with
    | nil =>
      simp only [chunksOf, chunksOfAux, List.length_nil]
      exact (Nat.div_eq_of_lt (by omega)).symm
    | cons x xs =>
      rw [chunksOf_cons n hn x xs, List.length_cons, List.length_cons]
      rw [ih ((x :: xs).drop n) (by
        rw [List.length_drop]
        simp only [List.length_cons] at hl ⊢
        omega)]
      rw [List.length_drop]
      simp only [List.length_cons]
      by_cases hc : xs.length + 1 ≤ n
      · have h1 : xs.length + 1 - n = 0 := by omega
        rw [h1, Nat.div_eq_of_lt (by omega : 0 + n - 1 < n)]
        have h2 : xs.length + 1 + n - 1 = xs.length + n := by omega
        rw [h2, Nat.add_div_right _ hn, Nat.div_eq_of_lt (by omega)]
      · have h1 : xs.length + 1 - n + n - 1 = xs.length := by omega
        have h2 : xs.length + 1 + n - 1 = xs.length + n := by omega
        rw [h1, h2, Nat.add_div_right _ hn]

theorem chunksOf_chunk_le (n : Nat) (hn : 0 < n) :
    ∀ (N : Nat) (l : List BalanceRow), l.length ≤ N →
      ∀ c ∈ chunksOf n l, c.length ≤ n := by
  intro N
  induction N with
  | zero =>
    intro l hl c hc
    have hnil : l = [] := List.length_eq_zero.mp (Nat.le_zero.mp hl)
    subst hnil
    simp [chunksOf, chunksOfAux] at hc
  | succ N ih =>
    intro l hl c hc
    cases l with
    | nil => simp [chunksOf, chunksOfAux] at hc
    | cons x xs =>
      rw [chunksOf_cons n hn x xs] at hc
      rcases List.mem_cons.mp hc with hh | hh
      · rw [hh, List.length_take]
        exact min_le_left _ _
      · exact ih ((x :: xs).drop n) (by
          rw [List.length_drop]
          simp only [List.length_cons] at hl ⊢
          omega) c hh

theorem chunksOf_flatten (n : Nat) (hn : 0 < n) :
    ∀ (N : Nat) (l : List BalanceRow), l.length ≤ N →
      (chunksOf n l).flatten = l := by
  intro N
  induction N with
  | zero =>
    intro l hl
    have hnil : l = [] := List.length_eq_zero.mp (Nat.le_zero.mp hl)
    subst hnil
    rfl
  | succ N ih =>
    intro l hl
    cases l with
    | nil => rfl
    | cons x xs =>
      rw [chunksOf_cons n hn x xs, List.flatten_cons]
      rw [ih ((x :: xs).drop n) (by
        rw [List.length_drop]
        simp only [List.length_cons] at hl ⊢
        omega)]
      exact List.take_append_drop n (x :: xs)

theorem run_chunks_ok_issued (faults : Nat → Option String) :
    ∀ (cs : List (List BalanceRow)) (i : Nat) (t : List BalanceRow),
      (run_chunks faults i t cs).fault = none →
      (run_chunks faults i t cs).issued = cs.length := by
  intro cs
  induction cs with
  | nil => intro i t _; rfl
  | cons c cs ih =>
    intro i t hok
    cases hins : insert_balance (faults i) c t with
    | error e =>
      simp only [run_chunks, hins] at hok
      exact absurd hok (by simp)
    | ok t2 =>
      simp only [run_chunks, hins] at hok ⊢
      have hrec := ih (i + 1) t2 hok
      simp [hrec]

theorem run_chunks_fail_at (faults : Nat → Option String) (e : String) :
    ∀ (cs : List (List BalanceRow)) (j i0 : Nat) (t : List BalanceRow),
      j < cs.length →
      (∀ d, d < j → faults (i0 + d) = none) →
      (∀ c ∈ cs.take j, keysDistinct c = true) →
      faults (i0 + j) = some e →
      run_chunks faults i0 t cs
        = ⟨j + 1,
            (cs.take j).foldl (fun s c => c.foldl upsertRow s) t,
            some ("Failed to update balances in db: " ++ e)⟩ := by
  intro cs
  induction cs with
  | nil => intro j i0 t hj _ _ _; exact absurd hj (by simp)
  | cons c cs ih =>
    intro j i0 t hj hok hdist hfail
    cases j with
    | zero =>
      have hf0 : faults i0 = some e := by simpa using hfail
      simp [run_chunks, insert_balance, hf0]
    | succ j1 =>
      have hf0 : faults i0 = none := by
        have hx := hok 0 (Nat.succ_pos j1)
        simpa using hx
      have hdc : keysDistinct c = true := hdist c (by simp)
      have hins : insert_balance (faults i0) c t = Except.ok (c.foldl upsertRow t) := by
        rw [hf0]
        simp [insert_balance, hdc]
      simp only [run_chunks, hins]
      have hok1 : ∀ d, d < j1 → faults (i0 + 1 + d) = none := by
        intro d hd
        have hidx : i0 + 1 + d = i0 + (d + 1) := by omega
        rw [hidx]
        exact hok (d + 1) (by omega)
      have hdist1 : ∀ c2 ∈ cs.take j1, keysDistinct c2 = true := by
        intro c2 hc2
        apply hdist c2
        rw [List.take_succ_cons]
        exact List.mem_cons_of_mem c hc2
      have hfail1 : faults (i0 + 1 + j1) = some e := by
        have hidx : i0 + 1 + j1 = i0 + (j1 + 1) := by omega
        rw [hidx]
        exact hfail
      have hrec := ih j1 (i0 + 1) (c.foldl upsertRow t)
        (Nat.lt_of_succ_lt_succ hj) hok1 hdist1 hfail1
      rw [hrec, List.take_succ_cons, List.foldl_cons]

/-- C3: with per-row column count `col_count` obtained from the schema
catalog and chunk capacity K = floor(65535 / col_count) = MAX_PARAM_SIZE /
col_count, a run that completes without a fault issues exactly
ceil(N / K) = (N + K - 1) / K sequential statements; no statement binds
more than K rows; and the statements cover the batch in input order
(their concatenation is the input list). -/
theorem insert_balance_in_chunks_statement_count (col_count : Nat)
    (balances t : List BalanceRow) (faults : Nat → Option String)
    (hK : 0 < MAX_PARAM_SIZE / col_count) :
    ((insert_balance_in_chunks faults col_count balances t).fault = none →
      (insert_balance_in_chunks faults col_count balances t).issued
        = (balances.length + MAX_PARAM_SIZE / col_count - 1)
            / (MAX_PARAM_SIZE / col_count)) ∧
    (∀ c ∈ chunksOf (MAX_PARAM_SIZE / col_count) balances,
      c.length ≤ MAX_PARAM_SIZE / col_count) ∧
    (chunksOf (MAX_PARAM_SIZE / col_count) balances).flatten = balances := by
  refine ⟨?_, ?_, ?_⟩
  · intro hok
    unfold insert_balance_in_chunks at hok ⊢
    rw [run_chunks_ok_issued faults _ 0 t hok]
    exact chunksOf_length (MAX_PARAM_SIZE / col_count) hK balances.length balances
      (Nat.le_refl _)
  · exact chunksOf_chunk_le (MAX_PARAM_SIZE / col_count) hK balances.length balances
      (Nat.le_refl _)
  · exact chunksOf_flatten (MAX_PARAM_SIZE / col_count) hK balances.length balances
      (Nat.le_refl _)

/-- Witness for C3: two rows, three columns (K = 21845), no faults. -/
theorem insert_balance_in_chunks_statement_count_witness :
    ((insert_balance_in_chunks (fun _ => none) 3 [sampleRowA, sampleRowB] []).fault = none →
      (insert_balance_in_chunks (fun _ => none) 3 [sampleRowA, sampleRowB] []).issued
        = (([sampleRowA, sampleRowB] : List BalanceRow).length + MAX_PARAM_SIZE / 3 - 1)
            / (MAX_PARAM_SIZE / 3)) ∧
    (∀ c ∈ chunksOf (MAX_PARAM_SIZE / 3) [sampleRowA, sampleRowB],
      c.length ≤ MAX_PARAM_SIZE / 3) ∧
    (chunksOf (MAX_PARAM_SIZE / 3) [sampleRowA, sampleRowB]).flatten
      = [sampleRowA, sampleRowB] :=
  insert_balance_in_chunks_statement_count 3 [sampleRowA, sampleRowB] []
    (fun _ => none) (by decide)

/-- C7 (amended): if statement `j` fails (the first failure of the run),
the writer issues no statement beyond it — exactly j + 1 statements run —
and it returns the failing statement's error wrapped in the fixed context
message, which carries no chunk index; the rows written by the j already
executed chunks remain on the connection (no rollback by the writer).
(The original claim's "identifies the index of the failing chunk" is
refuted by `insert_balance_in_chunks_no_chunk_index_counterexample`.) -/
theorem insert_balance_in_chunks_abort_on_failure (col_count : Nat)
    (balances t : List BalanceRow) (faults : Nat → Option String) (j : Nat) (e : String)
    (hj : j < (chunksOf (MAX_PARAM_SIZE / col_count) balances).length)
    (hok : ∀ i, i < j → faults i = none)
    (hdist : ∀ c ∈ (chunksOf (MAX_PARAM_SIZE / col_count) balances).take j,
      keysDistinct c = true)
    (hfail : faults j = some e) :
    insert_balance_in_chunks faults col_count balances t
      = ⟨j + 1,
          ((chunksOf (MAX_PARAM_SIZE / col_count) balances).take j).foldl
            (fun s c => c.foldl upsertRow s) t,
          some ("Failed to update balances in db: " ++ e)⟩ := by
  unfold insert_balance_in_chunks
  apply run_chunks_fail_at faults e _ j 0 t hj ?_ hdist ?_
  · intro d hd
    rw [Nat.zero_add]
    exact hok d hd
  · rw [Nat.zero_add]
    exact hfail

/-- Witness for the amended C7: two single-row chunks (col_count 65535, so
K = 1); the second statement faults with "boom". -/
theorem insert_balance_in_chunks_abort_on_failure_witness :
    insert_balance_in_chunks (fun i => if i = 1 then some "boom" else none) 65535
        [sampleRowA, sampleRowB] []
      = ⟨1 + 1,
          ((chunksOf (MAX_PARAM_SIZE / 65535) [sampleRowA, sampleRowB]).take 1).foldl
            (fun s c => c.foldl upsertRow s) [],
          some ("Failed to update balances in db: " ++ "boom")⟩ :=
  insert_balance_in_chunks_abort_on_failure 65535 [sampleRowA, sampleRowB] []
    (fun i => if i = 1 then some "boom" else none) 1 "boom"
    (by decide)
    (by intro i hi
        have hi0 : i = 0 := by omega
        rw [hi0]
        rfl)
    (by decide)
    (by decide)

/-- Counterexample to C7 as stated: two runs of the chunked writer over the
same two single-row chunks, one failing at chunk 0 and one at chunk 1 with
the same store error, return identical error values while having issued a
different number of statements — the returned error does not identify the
index of the failing chunk. -/
theorem insert_balance_in_chunks_no_chunk_index_counterexample :
    (insert_balance_in_chunks (fun i => if i = 0 then some "boom" else none) 65535
        [sampleRowA, sampleRowB] []).fault
      = (insert_balance_in_chunks (fun i => if i = 1 then some "boom" else none) 65535
        [sampleRowA, sampleRowB] []).fault ∧
    (insert_balance_in_chunks (fun i => if i = 0 then some "boom" else none) 65535
        [sampleRowA, sampleRowB] []).issued
      ≠ (insert_balance_in_chunks (fun i => if i = 1 then some "boom" else none) 65535
        [sampleRowA, sampleRowB] []).issued := by
  decide
